import Mathlib

/-!
Verification development for the SMC-Algo-Trading repository.

Shallow embedding of the ICT trading engine over exact rational prices:
* `Trade` models `BinanceBot/trade.py` (`ICTTraderClient`),
* `Enh` models `BinanceBot/enhanced_ict_strategy.py` (`EnhancedICTStrategyClient`),
* `Ict` models `ict_strategy.py` (module-level functions).

Candle series are lists of OHLCV rows; pandas positional access (`iloc`,
slices, `tail`) is rendered with `List.drop`/`List.take` and a total
`nth` accessor guarded by the same index bounds the Python loops enforce.
-/

namespace SMC

inductive PosType where
  | long
  | short
  deriving DecidableEq, Repr

inductive FvgType where
  | bullish
  | bearish
  deriving DecidableEq, Repr

/-- Market bias values used by `trade.py` (the strings "Bullish", "Bearish",
"Neutral", "Consolidation", "Expansion"). -/
inductive Bias where
  | Bullish
  | Bearish
  | Neutral
  | Consolidation
  | Expansion
  deriving DecidableEq, Repr

/-- One closed OHLCV candle; `time` is the row's timestamp (seconds). -/
structure Candle where
  time : Int
  opn : ℚ
  high : ℚ
  low : ℚ
  close : ℚ
  deriving DecidableEq, Repr

def defaultCandle : Candle := ⟨0, 0, 0, 0, 0⟩

/-- Total positional access, `df.iloc[i]`; every use is guarded by the same
index bounds the source loops enforce. -/
def nth (df : List Candle) (i : Nat) : Candle := df.getD i defaultCandle

/-- `df['close'].iloc[-1]`. -/
def lastClose (df : List Candle) : ℚ := (nth df (df.length - 1)).close

/-- `series.tail(n)` of pandas: the last `n` elements. -/
def takeLast (n : Nat) (l : List Candle) : List Candle := l.drop (l.length - n)

/-- `series.max()` on a rational column. -/
def qmax : List ℚ → ℚ
  | [] => 0
  | x :: xs => xs.foldl max x

/-- `series.min()` on a rational column. -/
def qmin : List ℚ → ℚ
  | [] => 0
  | x :: xs => xs.foldl min x

end SMC

namespace SMC.Trade

/-- `ICTTraderClient.calculate_swings`, swing-high column: for
`i in range(window, len(df)-window)` the flag is set when
`df['high'].iloc[i] == df['high'].iloc[i-window:i+window+1].max()`
(a non-strict maximum test); indices outside the loop range stay `False`. -/
def swing_high (df : List Candle) (window i : Nat) : Bool :=
  decide (window ≤ i) && decide (i + window < df.length) &&
  decide ((nth df i).high =
    qmax (((df.drop (i - window)).take (2 * window + 1)).map Candle.high))

/-- `ICTTraderClient.calculate_swings`, swing-low column:
`df['low'].iloc[i] == df['low'].iloc[i-window:i+window+1].min()`. -/
def swing_low (df : List Candle) (window i : Nat) : Bool :=
  decide (window ≤ i) && decide (i + window < df.length) &&
  decide ((nth df i).low =
    qmin (((df.drop (i - window)).take (2 * window + 1)).map Candle.low))

/-- `ICTTraderClient.calculate_swings`: the frame with both swing columns. -/
def calculate_swings (df : List Candle) (window : Nat) :
    List (Candle × Bool × Bool) :=
  (List.range df.length).map fun i => (nth df i, swing_high df window i, swing_low df window i)

/-- `ICTTraderClient.determine_market_structure`: bias from the last two swing
highs and lows of the last 20 rows of the swing-flagged frame (window 5, as in
`process_htf_data`). -/
def determine_market_structure (df : List Candle) : Bias :=
  let sw := calculate_swings df 5
  let recent := sw.drop (sw.length - 20)
  let swing_highs := (recent.filter fun r => r.2.1).map fun r => r.1.high
  let swing_lows := (recent.filter fun r => r.2.2).map fun r => r.1.low
  if swing_highs.length < 2 ∨ swing_lows.length < 2 then .Neutral
  else
    let h1 := swing_highs.getD (swing_highs.length - 1) 0
    let h2 := swing_highs.getD (swing_highs.length - 2) 0
    let l1 := swing_lows.getD (swing_lows.length - 1) 0
    let l2 := swing_lows.getD (swing_lows.length - 2) 0
    if h2 < h1 ∧ l2 < l1 then .Bullish
    else if h1 < h2 ∧ l1 < l2 then .Bearish
    else if h1 < h2 ∧ l2 < l1 then .Consolidation
    else if h2 < h1 ∧ l1 < l2 then .Expansion
    else .Neutral

/-- `ICTTraderClient.detect_liquidity_sweeps`, column `liquidity_sweep_low`:
the loop over `i in range(4, len(df))` sets the flag at row `j = i-1` when
`swing_low[i-2]` (window 3), `low[i-1] < low[i-2]` and `close[i] > close[i-1]`. -/
def liquidity_sweep_low (df : List Candle) (j : Nat) : Bool :=
  decide (3 ≤ j) && decide (j + 1 < df.length) &&
  swing_low df 3 (j - 1) &&
  decide ((nth df j).low < (nth df (j - 1)).low) &&
  decide ((nth df j).close < (nth df (j + 1)).close)

/-- `ICTTraderClient.detect_liquidity_sweeps`, column `liquidity_sweep_high`:
flag at row `j = i-1` when `swing_high[i-2]` (window 3), `high[i-1] > high[i-2]`
and `close[i] < close[i-1]`. -/
def liquidity_sweep_high (df : List Candle) (j : Nat) : Bool :=
  decide (3 ≤ j) && decide (j + 1 < df.length) &&
  swing_high df 3 (j - 1) &&
  decide ((nth df (j - 1)).high < (nth df j).high) &&
  decide ((nth df (j + 1)).close < (nth df j).close)

/-- An entry of `ICTTraderClient.active_fvgs` (the `fvg_data` dict):
`low`/`high` are the gap's bottom/top. -/
structure Fvg where
  type : FvgType
  created_time : Int
  low : ℚ
  high : ℚ
  size : ℚ
  filled : Bool
  retested : Bool
  deriving DecidableEq, Repr

/-- The dedup guard of `detect_fair_value_gaps`: append unless an active FVG
with the same `created_time` already exists. -/
def addIfNew (f : Fvg) (fvgs : List Fvg) : List Fvg :=
  if fvgs.any fun g => decide (g.created_time = f.created_time) then fvgs
  else fvgs ++ [f]

/-- The bullish-FVG candidate of `detect_fair_value_gaps` at loop index `i`:
requires `liquidity_sweep_low[i-2]`, a gap `low[i] > high[i-2]`, and
`fvg_size >= min_fvg_size`. -/
def bullCand (df : List Candle) (min_fvg_size : ℚ) (i : Nat) : Option Fvg :=
  if liquidity_sweep_low df (i - 2) then
    if (nth df (i - 2)).high < (nth df i).low then
      let fvg_size := ((nth df i).low - (nth df (i - 2)).high) / (nth df (i - 2)).high
      if min_fvg_size ≤ fvg_size then
        some ⟨.bullish, (nth df i).time, (nth df (i - 2)).high, (nth df i).low,
              fvg_size, false, false⟩
      else none
    else none
  else none

/-- The bearish-FVG candidate of `detect_fair_value_gaps` at loop index `i`:
requires `liquidity_sweep_high[i-2]`, a gap `high[i] < low[i-2]`, and
`fvg_size >= min_fvg_size`. -/
def bearCand (df : List Candle) (min_fvg_size : ℚ) (i : Nat) : Option Fvg :=
  if liquidity_sweep_high df (i - 2) then
    if (nth df i).high < (nth df (i - 2)).low then
      let fvg_size := ((nth df (i - 2)).low - (nth df i).high) / (nth df (i - 2)).low
      if min_fvg_size ≤ fvg_size then
        some ⟨.bearish, (nth df i).time, (nth df i).high, (nth df (i - 2)).low,
              fvg_size, false, false⟩
      else none
    else none
  else none

def applyCand (fvgs : List Fvg) (c : Option Fvg) : List Fvg :=
  match c with
  | none => fvgs
  | some f => addIfNew f fvgs

/-- One iteration of the `detect_fair_value_gaps` loop: the bullish block,
then the bearish block. -/
def fvgStep (df : List Candle) (min_fvg_size : ℚ) (acc : List Fvg) (i : Nat) : List Fvg :=
  applyCand (applyCand acc (bullCand df min_fvg_size i)) (bearCand df min_fvg_size i)

/-- `ICTTraderClient.detect_fair_value_gaps`: loop `i in range(3, len(df))`,
first the bullish then the bearish block, each appending its candidate to
`self.active_fvgs` unless an FVG with the same `created_time` is tracked. -/
def detect_fair_value_gaps (df : List Candle) (min_fvg_size : ℚ)
    (fvgs : List Fvg) : List Fvg :=
  ((List.range df.length).drop 3).foldl (fvgStep df min_fvg_size) fvgs

/-- The fill-marking pass of `ICTTraderClient.update_active_fvgs`: a bullish
FVG fills when the last bar's low trades at or below the gap low, a bearish
one when the last bar's high trades at or above the gap high. -/
def markFilled (last_low last_high : ℚ) (f : Fvg) : Fvg :=
  if f.filled then f
  else
    match f.type with
    | .bullish => if last_low ≤ f.low then { f with filled := true } else f
    | .bearish => if f.high ≤ last_high then { f with filled := true } else f

/-- `ICTTraderClient.update_active_fvgs`: mark fills, then keep
`not filled or (current_time - created_time).total_seconds() < 20*60*interval`. -/
def update_active_fvgs (fvgs : List Fvg) (last_low last_high : ℚ)
    (current_time interval_seconds : Int) : List Fvg :=
  if fvgs = [] then fvgs
  else
    (fvgs.map (markFilled last_low last_high)).filter fun f =>
      !f.filled || decide (current_time - f.created_time < 20 * 60 * interval_seconds)

/-- An entry of `ICTTraderClient.valid_entries` (`entry_data`); `fvgTime` is
the `created_time` of the FVG stored under the `fvg` key. -/
structure Entry where
  type : PosType
  entry_price : ℚ
  stop_loss : ℚ
  take_profit : ℚ
  risk_amount : ℚ
  fvgTime : Int
  deriving DecidableEq, Repr

/-- The long `entry_data` built by `check_fvg_retests`:
`stop_loss = fvg['low'] * 0.996`, `take_profit = entry + risk * rr_ratio`. -/
def mkLongEntry (current_price rr_ratio : ℚ) (f : Fvg) : Entry :=
  let stop_loss := f.low * (0.996 : ℚ)
  let risk_amount := current_price - stop_loss
  ⟨.long, current_price, stop_loss, current_price + risk_amount * rr_ratio,
   risk_amount, f.created_time⟩

/-- The short `entry_data` built by `check_fvg_retests`:
`stop_loss = fvg['high'] * 1.004`, `take_profit = entry - risk * rr_ratio`. -/
def mkShortEntry (current_price rr_ratio : ℚ) (f : Fvg) : Entry :=
  let stop_loss := f.high * (1.004 : ℚ)
  let risk_amount := stop_loss - current_price
  ⟨.short, current_price, stop_loss, current_price - risk_amount * rr_ratio,
   risk_amount, f.created_time⟩

/-- The per-FVG guard of `check_fvg_retests`: skip filled or retested FVGs;
a bullish FVG yields a long entry when `htf_bias != 'Bearish'` and the close
lies inside `[low, high]`; a bearish FVG yields a short entry when
`htf_bias != 'Bullish'` under the same price test. -/
def candOf (htf_bias : Bias) (current_price rr_ratio : ℚ) (f : Fvg) : Option Entry :=
  if f.filled || f.retested then none
  else if f.type = .bullish ∧ htf_bias ≠ .Bearish then
    if f.low ≤ current_price ∧ current_price ≤ f.high then
      some (mkLongEntry current_price rr_ratio f)
    else none
  else if f.type = .bearish ∧ htf_bias ≠ .Bullish then
    if f.low ≤ current_price ∧ current_price ≤ f.high then
      some (mkShortEntry current_price rr_ratio f)
    else none
  else none

/-- The in-place mutation `check_fvg_retests` performs on an FVG: set
`retested = True` exactly when it synthesizes an entry from it. -/
def retestFvg (htf_bias : Bias) (current_price rr_ratio : ℚ) (f : Fvg) : Fvg :=
  if (candOf htf_bias current_price rr_ratio f).isSome then { f with retested := true }
  else f

/-- Sort key of `valid_entries.sort(...)`:
`abs(tp - entry) / abs(sl - entry)`. -/
def rrKey (e : Entry) : ℚ :=
  |e.take_profit - e.entry_price| / |e.stop_loss - e.entry_price|

/-- Stable descending insertion by `rrKey` (Python `sort` with `reverse=True`). -/
def insertDesc (x : Entry) : List Entry → List Entry
  | [] => [x]
  | y :: ys => if rrKey y ≤ rrKey x then x :: y :: ys else y :: insertDesc x ys

def sortDesc : List Entry → List Entry
  | [] => []
  | x :: xs => insertDesc x (sortDesc xs)

/-- A record of `ICTTraderClient.trade_history`; `closed` models
`status == 'closed'` (times are external and not tracked). -/
structure TradeRec where
  type : PosType
  entry_price : ℚ
  stop_loss : ℚ
  take_profit : ℚ
  risk_amount : ℚ
  exit_price : Option ℚ
  profit_pct : Option ℚ
  closed : Bool
  deriving DecidableEq, Repr

/-- The mutable strategy state of `ICTTraderClient`. `interval_seconds` is the
value of `get_interval_seconds()` for the configured interval string. -/
structure MState where
  position_open : Bool
  position_type : Option PosType
  entry_price : ℚ
  stop_loss : ℚ
  take_profit : ℚ
  risk_amount : ℚ
  trail_stop : ℚ
  trail_stop_enabled : Bool
  rr_ratio : ℚ
  min_fvg_size : ℚ
  interval_seconds : Int
  htf_bias : Bias
  active_fvgs : List Fvg
  valid_entries : List Entry
  trade_history : List TradeRec
  deriving DecidableEq, Repr

/-- `ICTTraderClient.check_fvg_retests`: early return when there are no active
FVGs or a position is open; otherwise mark retested FVGs and store the
candidates sorted by descending reward-to-risk into `valid_entries`. -/
def check_fvg_retests (s : MState) (current_price : ℚ) : MState :=
  if s.active_fvgs = [] ∨ s.position_open = true then s
  else
    { s with
      active_fvgs := s.active_fvgs.map (retestFvg s.htf_bias current_price s.rr_ratio),
      valid_entries :=
        sortDesc (s.active_fvgs.filterMap (candOf s.htf_bias current_price s.rr_ratio)) }

/-- The trade-history mutation of a close: update the last record with exit
price, profit percentage and `status='closed'` (no-op on empty history). -/
def closeLast (h : List TradeRec) (e p : ℚ) : List TradeRec :=
  match h.getLast? with
  | none => h
  | some t =>
      h.dropLast ++ [{ t with exit_price := some e, profit_pct := some p, closed := true }]

/-- The trade record appended when a position opens. -/
def openRec (t : PosType) (s : MState) : TradeRec :=
  ⟨t, s.entry_price, s.stop_loss, s.take_profit, s.risk_amount, none, none, false⟩

/-- `ICTTraderClient.trade_buy`. The Binance execution call
`super().trade_buy()` lives outside `src`; `fill = false` models it raising
(the exception is caught before any position/history mutation runs),
`fill = true` a completed call. -/
def trade_buy (s : MState) (current_price : ℚ) (fill : Bool) : MState :=
  if fill = false then s
  else if s.position_open = true ∧ s.position_type = some .short then
    { s with trade_history := closeLast s.trade_history current_price
               ((s.entry_price - current_price) / s.entry_price * 100),
             position_open := false, position_type := none }
  else
    { s with position_open := true, position_type := some .long,
             trade_history := s.trade_history ++ [openRec .long s] }

/-- `ICTTraderClient.trade_sell`; see `trade_buy` for the `fill` flag. -/
def trade_sell (s : MState) (current_price : ℚ) (fill : Bool) : MState :=
  if fill = false then s
  else if s.position_open = true ∧ s.position_type = some .long then
    { s with trade_history := closeLast s.trade_history current_price
               ((current_price - s.entry_price) / s.entry_price * 100),
             position_open := false, position_type := none }
  else
    { s with position_open := true, position_type := some .short,
             trade_history := s.trade_history ++ [openRec .short s] }

/-- The trailing-stop update for an open long in `manager`: when enabled and
the price is above entry, raise `stop_loss` to
`price * (1 - trail_stop * (risk_amount / entry_price))` if that is higher. -/
def trailLong (s : MState) (current_price : ℚ) : MState :=
  if s.trail_stop_enabled = true ∧ s.entry_price < current_price then
    if s.stop_loss < current_price * (1 - s.trail_stop * (s.risk_amount / s.entry_price)) then
      { s with stop_loss := current_price * (1 - s.trail_stop * (s.risk_amount / s.entry_price)) }
    else s
  else s

/-- The trailing-stop update for an open short in `manager`: when enabled and
the price is below entry, lower `stop_loss` to
`price * (1 + trail_stop * (risk_amount / entry_price))` if that is lower. -/
def trailShort (s : MState) (current_price : ℚ) : MState :=
  if s.trail_stop_enabled = true ∧ current_price < s.entry_price then
    if current_price * (1 + s.trail_stop * (s.risk_amount / s.entry_price)) < s.stop_loss then
      { s with stop_loss := current_price * (1 + s.trail_stop * (s.risk_amount / s.entry_price)) }
    else s
  else s

/-- `ICTTraderClient.process_htf_data`: recompute `htf_bias` from the HTF
frame (no-op when no HTF data is available). -/
def process_htf_data (s : MState) (htf_df : List Candle) : MState :=
  if htf_df = [] then s
  else { s with htf_bias := determine_market_structure htf_df }

/-- `ICTTraderClient.process_ltf_data`: sweeps (folded into the flag columns
consumed below), FVG detection, FVG update, then retest checking. -/
def process_ltf_data (s : MState) (df : List Candle) : MState :=
  if df = [] then s
  else
    let afterDetect := detect_fair_value_gaps df s.min_fvg_size s.active_fvgs
    let last := nth df (df.length - 1)
    let afterUpdate :=
      update_active_fvgs afterDetect last.low last.high last.time s.interval_seconds
    check_fvg_retests { s with active_fvgs := afterUpdate } (lastClose df)

/-- `ICTTraderClient.data_process`. -/
def data_process (s : MState) (htf_df df : List Candle) : MState :=
  process_ltf_data (process_htf_data s htf_df) df

/-- `ICTTraderClient.manager`: while a position is open, check take profit,
update the trailing stop, and check stop loss; otherwise reprocess the data
and enter the best valid entry, if any. -/
def manager (s : MState) (htf_df df : List Candle) (fill : Bool) : MState :=
  if s.position_open = true then
    let current_price := lastClose df
    match s.position_type with
    | some .long =>
      if s.take_profit ≤ current_price then trade_sell s current_price fill
      else
        if current_price ≤ (trailLong s current_price).stop_loss then
          trade_sell (trailLong s current_price) current_price fill
        else trailLong s current_price
    | some .short =>
      if current_price ≤ s.take_profit then trade_buy s current_price fill
      else
        if (trailShort s current_price).stop_loss ≤ current_price then
          trade_buy (trailShort s current_price) current_price fill
        else trailShort s current_price
    | none => s
  else
    let s1 := data_process s htf_df df
    match s1.valid_entries with
    | [] => s1
    | best :: _ =>
      let s2 := { s1 with entry_price := best.entry_price, stop_loss := best.stop_loss,
                          take_profit := best.take_profit, risk_amount := best.risk_amount,
                          position_type := some best.type }
      match best.type with
      | .long => trade_buy s2 (lastClose df) fill
      | .short => trade_sell s2 (lastClose df) fill

end SMC.Trade

namespace SMC.Enh

/-- `EnhancedICTStrategyClient.calculate_swings`, swing-high column: strict
comparison of `high[i]` against the `window` highs on each side. -/
def swing_high (df : List Candle) (window i : Nat) : Bool :=
  decide (window ≤ i) && decide (i + window < df.length) &&
  ((List.range window).all fun j => decide ((nth df (i - (j + 1))).high < (nth df i).high)) &&
  ((List.range window).all fun j => decide ((nth df (i + (j + 1))).high < (nth df i).high))

/-- `EnhancedICTStrategyClient.calculate_swings`, swing-low column: strict
comparison of `low[i]` against the `window` lows on each side. -/
def swing_low (df : List Candle) (window i : Nat) : Bool :=
  decide (window ≤ i) && decide (i + window < df.length) &&
  ((List.range window).all fun j => decide ((nth df i).low < (nth df (i - (j + 1))).low)) &&
  ((List.range window).all fun j => decide ((nth df i).low < (nth df (i + (j + 1))).low))

/-- An entry of `EnhancedICTStrategyClient.active_fvgs`. -/
structure EFvg where
  type : FvgType
  top : ℚ
  bottom : ℚ
  size : ℚ
  age : Nat
  created_at : Int
  deriving DecidableEq, Repr

/-- `EnhancedICTStrategyClient.last_liquidity_sweep`. -/
structure Sweep where
  type : FvgType
  price : ℚ
  candle_index : Nat
  time : Int
  deriving DecidableEq, Repr

/-- `EnhancedICTStrategyClient.detect_fair_value_gaps`: inspect the three
candles starting at the sweep index and unconditionally append a detected FVG
to `active_fvgs` (there is no duplicate check in this variant). -/
def detect_fair_value_gaps (df : List Candle) (last_liquidity_sweep : Option Sweep)
    (active_fvgs : List EFvg) : List EFvg :=
  match last_liquidity_sweep with
  | none => active_fvgs
  | some sw =>
    if df.length < sw.candle_index + 3 then active_fvgs
    else
      let candle1 := nth df sw.candle_index
      let candle2 := nth df (sw.candle_index + 1)
      let candle3 := nth df (sw.candle_index + 2)
      match sw.type with
      | .bullish =>
        if (candle2.opn < candle2.close ∧
              (1/1000 : ℚ) < (candle2.close - candle2.opn) / candle2.opn) ∧
            candle1.high < candle3.low then
          let fvg_size := (candle3.low - candle1.high) / candle1.high
          if (1/1000 : ℚ) < fvg_size then
            active_fvgs ++ [⟨.bullish, candle3.low, candle1.high, fvg_size, 0, candle3.time⟩]
          else active_fvgs
        else active_fvgs
      | .bearish =>
        if (candle2.close < candle2.opn ∧
              (1/1000 : ℚ) < (candle2.opn - candle2.close) / candle2.opn) ∧
            candle3.high < candle1.low then
          let fvg_size := (candle1.low - candle3.high) / candle1.low
          if (1/1000 : ℚ) < fvg_size then
            active_fvgs ++ [⟨.bearish, candle1.low, candle3.high, fvg_size, 0, candle3.time⟩]
          else active_fvgs
        else active_fvgs

/-- The body of the `update_active_fvgs` loop in the enhanced client: age the
FVG, drop it when `age > fvg_lookback`, drop a bullish FVG when the close is
below its bottom, a bearish one when the close is above its top. -/
def updateStep (fvg_lookback : Nat) (current_price : ℚ) (f : EFvg) : Option EFvg :=
  let f1 : EFvg := { f with age := f.age + 1 }
  if fvg_lookback < f1.age then none
  else if f1.type = .bullish ∧ current_price < f1.bottom then none
  else if f1.type = .bearish ∧ f1.top < current_price then none
  else some f1

/-- `EnhancedICTStrategyClient.update_active_fvgs`. -/
def update_active_fvgs (fvg_lookback : Nat) (active_fvgs : List EFvg)
    (current_price : ℚ) : List EFvg :=
  active_fvgs.filterMap (updateStep fvg_lookback current_price)

end SMC.Enh

namespace SMC.Ict

/-- `ict_strategy.calculate_sl_tp`: smart SL/TP from the last candles.
Returns `(stop_loss, take_profit)`, or `(None, None)` for an unrecognized
direction or fewer than 5 candles. -/
def calculate_sl_tp (df : List Candle) (trade_direction : String)
    (risk_reward_ratio : ℚ) : Option ℚ × Option ℚ :=
  if ¬(trade_direction = ("Bullish MSS") ∨ trade_direction = ("Bearish MSS")) then
    (none, none)
  else if df.length < 5 then
    (none, none)
  else
    let current_price := lastClose df
    if trade_direction = ("Bullish MSS") then
      let stop_loss := qmin ((takeLast 5 df).map Candle.low)
      let sl_distance := current_price - stop_loss
      let take_profit := current_price + sl_distance * risk_reward_ratio
      let alt_tp := qmax ((takeLast 20 df).map Candle.high)
      let take_profit :=
        if |current_price - alt_tp| < |current_price - take_profit| ∧ current_price < alt_tp
        then alt_tp else take_profit
      (some stop_loss, some take_profit)
    else
      let stop_loss := qmax ((takeLast 5 df).map Candle.high)
      let sl_distance := stop_loss - current_price
      let take_profit := current_price - sl_distance * risk_reward_ratio
      let alt_tp := qmin ((takeLast 20 df).map Candle.low)
      let take_profit :=
        if |current_price - alt_tp| < |current_price - take_profit| ∧ alt_tp < current_price
        then alt_tp else take_profit
      (some stop_loss, some take_profit)

end SMC.Ict

namespace SMC

/-- A state with an open long position (trailing enabled). -/
def exS1 : Trade.MState :=
  { position_open := true, position_type := some .long, entry_price := 100,
    stop_loss := 95, take_profit := 105, risk_amount := 5, trail_stop := 0.8,
    trail_stop_enabled := true, rr_ratio := 2, min_fvg_size := 0.0005,
    interval_seconds := 300, htf_bias := .Bullish, active_fvgs := [],
    valid_entries := [], trade_history := [] }

/-- A one-candle frame whose close sits between the stop and target of `exS1`. -/
def exDf1 : List Candle := [⟨0, 100, 102, 99, 101⟩]

/-- A state with an open short position (trailing enabled). -/
def exS3 : Trade.MState :=
  { position_open := true, position_type := some .short, entry_price := 100,
    stop_loss := 105, take_profit := 95, risk_amount := 5, trail_stop := 0.8,
    trail_stop_enabled := true, rr_ratio := 2, min_fvg_size := 0.0005,
    interval_seconds := 300, htf_bias := .Bearish, active_fvgs := [],
    valid_entries := [], trade_history := [] }

/-- A one-candle frame below the entry of `exS3` (favorable for the short). -/
def exDf3 : List Candle := [⟨0, 99, 100, 97, 98⟩]

/-- A bullish FVG spanning 100–102 (midpoint 101), not yet filled. -/
def exF4 : Trade.Fvg := ⟨.bullish, 0, 100, 102, 1/50, false, false⟩

/-- A bullish enhanced-client FVG with bottom 100 and top 102. -/
def exG4 : Enh.EFvg := ⟨.bullish, 102, 100, 1/50, 0, 0⟩

/-- A young bullish FVG that gets filled by a bar with low 99. -/
def exF5 : Trade.Fvg := ⟨.bullish, 0, 100, 102, 1/50, false, false⟩

/-- An unfilled FVG created at time 0, far older than 20 bars. -/
def exF5old : Trade.Fvg := ⟨.bullish, 0, 100, 102, 1/50, false, false⟩

/-- A fresh enhanced-client FVG, and its one-pass update `exG5`. -/
def exG5pre : Enh.EFvg := ⟨.bullish, 102, 100, 1/50, 0, 0⟩

def exG5 : Enh.EFvg := ⟨.bullish, 102, 100, 1/50, 1, 0⟩

/-- A three-candle series with a tie in the highs: highs 1, 2, 2. -/
def exDf6 : List Candle := [⟨0, 1, 1, 1, 1⟩, ⟨1, 2, 2, 2, 2⟩, ⟨2, 2, 2, 2, 2⟩]

/-- The claim's strict swing-high rule, as the spec words it: `high[i]` is the
strict maximum over `[i-window, i+window]` with `window` candles on each side. -/
def specStrictSwingHigh (df : List Candle) (window i : Nat) : Prop :=
  window ≤ i ∧ i + window < df.length ∧
  ∀ j, i - window ≤ j → j ≤ i + window → j ≠ i → (nth df j).high < (nth df i).high

/-- Three candles forming a bullish FVG after a sweep at index 0: a strongly
bullish displacement candle and a gap `low[2] = 102 > high[0] = 101`. -/
def exDf2 : List Candle :=
  [⟨0, 100, 101, 99, 100⟩, ⟨60, 100, 103, 100, 102⟩, ⟨120, 102, 104, 102, 103⟩]

/-- The bullish liquidity sweep recorded at candle index 0. -/
def exSw2 : Enh.Sweep := ⟨.bullish, 99, 0, 0⟩

/-- A bullish FVG 100–102 used for the retest-guard claim. -/
def exF7 : Trade.Fvg := ⟨.bullish, 0, 100, 102, 1, false, false⟩

/-- A flat state under Neutral bias tracking `exF7`. -/
def exS7 : Trade.MState :=
  { position_open := false, position_type := none, entry_price := 0,
    stop_loss := 0, take_profit := 0, risk_amount := 0, trail_stop := 0.8,
    trail_stop_enabled := true, rr_ratio := 2, min_fvg_size := 0.0005,
    interval_seconds := 300, htf_bias := .Neutral, active_fvgs := [exF7],
    valid_entries := [], trade_history := [] }

/-- The long entry synthesized from `exF7` at close 101. -/
def exE7 : Trade.Entry := Trade.mkLongEntry 101 2 exF7

/-- A bullish FVG 100–102, unfilled and not yet retested. -/
def exF9 : Trade.Fvg := ⟨.bullish, 0, 100, 102, 1, false, false⟩

/-- A flat state under Neutral bias tracking `exF9`. -/
def exS9 : Trade.MState :=
  { position_open := false, position_type := none, entry_price := 0,
    stop_loss := 0, take_profit := 0, risk_amount := 0, trail_stop := 0.8,
    trail_stop_enabled := true, rr_ratio := 2, min_fvg_size := 0.0005,
    interval_seconds := 300, htf_bias := .Neutral, active_fvgs := [exF9],
    valid_entries := [], trade_history := [] }

/-- A bar closing at 101, inside the 100–102 gap of `exF9`. -/
def exDf9 : List Candle := [⟨600, 101, 102, 101, 101⟩]

/-- The open trade record behind `exS8`. -/
def exRec8 : Trade.TradeRec := ⟨.long, 100, 95, 105, 5, none, none, false⟩

/-- An open long with entry 100, stop 95 and target 105, one open record. -/
def exS8 : Trade.MState :=
  { position_open := true, position_type := some .long, entry_price := 100,
    stop_loss := 95, take_profit := 105, risk_amount := 5, trail_stop := 0.8,
    trail_stop_enabled := true, rr_ratio := 2, min_fvg_size := 0.0005,
    interval_seconds := 300, htf_bias := .Bullish, active_fvgs := [],
    valid_entries := [], trade_history := [exRec8] }

/-- A bar closing at 110, well beyond the 105 target of `exS8`. -/
def exDf8 : List Candle := [⟨0, 109, 111, 108, 110⟩]

/-- A five-candle series with `low ≤ close ≤ high` on every row. -/
def exDf10 : List Candle :=
  [⟨0, 100, 101, 99, 100⟩, ⟨1, 100, 101, 99, 100⟩, ⟨2, 100, 101, 99, 100⟩,
   ⟨3, 100, 101, 99, 100⟩, ⟨4, 100, 101, 99, 100⟩]

lemma seed_le_foldl_max : ∀ (xs : List ℚ) (a : ℚ), a ≤ xs.foldl max a
  | [], a => le_refl a
  | b :: bs, a => le_trans (le_max_left a b) (seed_le_foldl_max bs (max a b))

lemma foldl_max_le_of_mem {xs : List ℚ} {a x : ℚ} (h : x ∈ xs) :
    x ≤ xs.foldl max a := by
  induction xs generalizing a with
  | nil => cases h
  | cons b bs ih =>
    simp only [List.foldl_cons]
    rcases List.mem_cons.mp h with h | h
    · subst h; exact le_trans (le_max_right a x) (seed_le_foldl_max bs (max a x))
    · exact ih h

lemma le_qmax {l : List ℚ} {x : ℚ} (h : x ∈ l) : x ≤ qmax l := by
  cases l with
  | nil => cases h
  | cons a as =>
    simp only [qmax]
    rcases List.mem_cons.mp h with h | h
    · subst h; exact seed_le_foldl_max as x
    · exact foldl_max_le_of_mem h

lemma foldl_max_mem (xs : List ℚ) (a : ℚ) :
    xs.foldl max a = a ∨ xs.foldl max a ∈ xs := by
  induction xs generalizing a with
  | nil => simp
  | cons b bs ih =>
    simp only [List.foldl_cons]
    rcases ih (max a b) with h | h
    · rcases le_total a b with hab | hab
      · refine Or.inr ?_
        rw [h, max_eq_right hab]
        exact List.mem_cons_self b bs
      · exact Or.inl (by rw [h, max_eq_left hab])
    · exact Or.inr (List.mem_cons_of_mem b h)

lemma qmax_mem {l : List ℚ} (h : l ≠ []) : qmax l ∈ l := by
  cases l with
  | nil => simp at h
  | cons a as =>
    simp only [qmax]
    rcases foldl_max_mem as a with h | h
    · simp [h]
    · simp [h]

lemma foldl_min_le_seed : ∀ (xs : List ℚ) (a : ℚ), xs.foldl min a ≤ a
  | [], a => le_refl a
  | b :: bs, a => le_trans (foldl_min_le_seed bs (min a b)) (min_le_left a b)

lemma foldl_min_le_of_mem {xs : List ℚ} {a x : ℚ} (h : x ∈ xs) :
    xs.foldl min a ≤ x := by
  induction xs generalizing a with
  | nil => cases h
  | cons b bs ih =>
    simp only [List.foldl_cons]
    rcases List.mem_cons.mp h with h | h
    · subst h; exact le_trans (foldl_min_le_seed bs (min a x)) (min_le_right a x)
    · exact ih h

lemma qmin_le {l : List ℚ} {x : ℚ} (h : x ∈ l) : qmin l ≤ x := by
  cases l with
  | nil => cases h
  | cons a as =>
    simp only [qmin]
    rcases List.mem_cons.mp h with h | h
    · subst h; exact foldl_min_le_seed as x
    · exact foldl_min_le_of_mem h

lemma foldl_min_mem (xs : List ℚ) (a : ℚ) :
    xs.foldl min a = a ∨ xs.foldl min a ∈ xs := by
  induction xs generalizing a with
  | nil => simp
  | cons b bs ih =>
    simp only [List.foldl_cons]
    rcases ih (min a b) with h | h
    · rcases le_total b a with hab | hab
      · refine Or.inr ?_
        rw [h, min_eq_right hab]
        exact List.mem_cons_self b bs
      · exact Or.inl (by rw [h, min_eq_left hab])
    · exact Or.inr (List.mem_cons_of_mem b h)

lemma qmin_mem {l : List ℚ} (h : l ≠ []) : qmin l ∈ l := by
  cases l with
  | nil => simp at h
  | cons a as =>
    simp only [qmin]
    rcases foldl_min_mem as a with h | h
    · simp [h]
    · simp [h]

lemma nth_mem {df : List Candle} {i : Nat} (h : i < df.length) : nth df i ∈ df := by
  unfold nth
  rw [List.getD_eq_getElem df defaultCandle h]
  exact List.getElem_mem h

lemma last_mem_takeLast {df : List Candle} {n : Nat} (hn : 1 ≤ n) (hd : df ≠ []) :
    nth df (df.length - 1) ∈ takeLast n df := by
  unfold takeLast
  have hlen : 0 < df.length := List.length_pos.mpr hd
  have hlt : df.length - 1 - (df.length - n) < (df.drop (df.length - n)).length := by
    rw [List.length_drop]; omega
  have : (df.drop (df.length - n))[df.length - 1 - (df.length - n)] = nth df (df.length - 1) := by
    rw [List.getElem_drop]
    unfold nth
    rw [List.getD_eq_getElem df defaultCandle (by omega)]
    congr 1
    omega
  rw [← this]
  exact List.getElem_mem hlt

lemma closeLast_length (h : List Trade.TradeRec) (e p : ℚ) :
    (Trade.closeLast h e p).length = h.length := by
  unfold Trade.closeLast
  cases hl : h.getLast? with
  | none => rfl
  | some t =>
    have hne : h ≠ [] := by
      intro h0
      subst h0
      simp at hl
    have hpos : 0 < h.length := List.length_pos.mpr hne
    simp only [List.length_append, List.length_dropLast, List.length_singleton]
    omega

lemma trailLong_fields (s : Trade.MState) (cp : ℚ) :
    (Trade.trailLong s cp).position_open = s.position_open ∧
    (Trade.trailLong s cp).position_type = s.position_type ∧
    (Trade.trailLong s cp).entry_price = s.entry_price ∧
    (Trade.trailLong s cp).take_profit = s.take_profit ∧
    (Trade.trailLong s cp).trade_history = s.trade_history ∧
    (Trade.trailLong s cp).active_fvgs = s.active_fvgs ∧
    (Trade.trailLong s cp).valid_entries = s.valid_entries ∧
    s.stop_loss ≤ (Trade.trailLong s cp).stop_loss := by
  unfold Trade.trailLong
  split
  · split
    · next h => exact ⟨rfl, rfl, rfl, rfl, rfl, rfl, rfl, le_of_lt h⟩
    · exact ⟨rfl, rfl, rfl, rfl, rfl, rfl, rfl, le_refl _⟩
  · exact ⟨rfl, rfl, rfl, rfl, rfl, rfl, rfl, le_refl _⟩

lemma trailShort_fields (s : Trade.MState) (cp : ℚ) :
    (Trade.trailShort s cp).position_open = s.position_open ∧
    (Trade.trailShort s cp).position_type = s.position_type ∧
    (Trade.trailShort s cp).entry_price = s.entry_price ∧
    (Trade.trailShort s cp).take_profit = s.take_profit ∧
    (Trade.trailShort s cp).trade_history = s.trade_history ∧
    (Trade.trailShort s cp).active_fvgs = s.active_fvgs ∧
    (Trade.trailShort s cp).valid_entries = s.valid_entries ∧
    (Trade.trailShort s cp).stop_loss ≤ s.stop_loss := by
  unfold Trade.trailShort
  split
  · split
    · next h => exact ⟨rfl, rfl, rfl, rfl, rfl, rfl, rfl, le_of_lt h⟩
    · exact ⟨rfl, rfl, rfl, rfl, rfl, rfl, rfl, le_refl _⟩
  · exact ⟨rfl, rfl, rfl, rfl, rfl, rfl, rfl, le_refl _⟩

lemma trade_sell_stop_loss (s : Trade.MState) (cp : ℚ) (fill : Bool) :
    (Trade.trade_sell s cp fill).stop_loss = s.stop_loss := by
  unfold Trade.trade_sell
  split
  · rfl
  · split <;> rfl

lemma trade_buy_stop_loss (s : Trade.MState) (cp : ℚ) (fill : Bool) :
    (Trade.trade_buy s cp fill).stop_loss = s.stop_loss := by
  unfold Trade.trade_buy
  split
  · rfl
  · split <;> rfl

lemma trade_sell_close (s : Trade.MState) (cp : ℚ) (fill : Bool)
    (h1 : s.position_open = true) (h2 : s.position_type = some .long) :
    Trade.trade_sell s cp fill = s ∨
    Trade.trade_sell s cp fill =
      { s with trade_history := Trade.closeLast s.trade_history cp
                 ((cp - s.entry_price) / s.entry_price * 100),
               position_open := false, position_type := none } := by
  unfold Trade.trade_sell
  split
  · exact Or.inl rfl
  · rw [if_pos ⟨h1, h2⟩]
    exact Or.inr rfl

lemma trade_buy_close (s : Trade.MState) (cp : ℚ) (fill : Bool)
    (h1 : s.position_open = true) (h2 : s.position_type = some .short) :
    Trade.trade_buy s cp fill = s ∨
    Trade.trade_buy s cp fill =
      { s with trade_history := Trade.closeLast s.trade_history cp
                 ((s.entry_price - cp) / s.entry_price * 100),
               position_open := false, position_type := none } := by
  unfold Trade.trade_buy
  split
  · exact Or.inl rfl
  · rw [if_pos ⟨h1, h2⟩]
    exact Or.inr rfl

lemma mem_insertDesc {x a : Trade.Entry} {l : List Trade.Entry} :
    a ∈ Trade.insertDesc x l ↔ a = x ∨ a ∈ l := by
  induction l with
  | nil => simp [Trade.insertDesc]
  | cons y ys ih =>
    unfold Trade.insertDesc
    split
    · simp
    · simp only [List.mem_cons, ih]
      tauto

lemma mem_sortDesc {a : Trade.Entry} {l : List Trade.Entry} :
    a ∈ Trade.sortDesc l ↔ a ∈ l := by
  induction l with
  | nil => simp [Trade.sortDesc]
  | cons y ys ih =>
    simp only [Trade.sortDesc, mem_insertDesc, ih, List.mem_cons]

lemma trade_buy_nofill (s : Trade.MState) (cp : ℚ) :
    Trade.trade_buy s cp false = s := by
  simp [Trade.trade_buy]

lemma trade_sell_nofill (s : Trade.MState) (cp : ℚ) :
    Trade.trade_sell s cp false = s := by
  simp [Trade.trade_sell]

lemma retestFvg_created_time (b : Bias) (cp rr : ℚ) (f : Trade.Fvg) :
    (Trade.retestFvg b cp rr f).created_time = f.created_time := by
  unfold Trade.retestFvg
  split <;> rfl

lemma retestFvg_retested_of_some {b : Bias} {cp rr : ℚ} {f : Trade.Fvg}
    {e : Trade.Entry} (h : Trade.candOf b cp rr f = some e) :
    (Trade.retestFvg b cp rr f).retested = true := by
  unfold Trade.retestFvg
  rw [if_pos (by rw [h]; rfl)]

lemma candOf_fvgTime {b : Bias} {cp rr : ℚ} {f : Trade.Fvg} {e : Trade.Entry}
    (h : Trade.candOf b cp rr f = some e) : e.fvgTime = f.created_time := by
  unfold Trade.candOf at h
  split at h
  · exact absurd h (by simp)
  · split at h
    · split at h
      · obtain rfl := Option.some.inj h
        rfl
      · exact absurd h (by simp)
    · split at h
      · split at h
        · obtain rfl := Option.some.inj h
          rfl
        · exact absurd h (by simp)
      · exact absurd h (by simp)

lemma slice_map_eq (proj : Candle → ℚ) (df : List Candle) (a n : Nat)
    (h : a + n ≤ df.length) :
    ((df.drop a).take n).map proj = (List.range n).map fun k => proj (nth df (a + k)) := by
  apply List.ext_getElem
  · simp only [List.length_map, List.length_take, List.length_drop, List.length_range]
    omega
  · intro i h1 h2
    simp only [List.getElem_map, List.getElem_take, List.getElem_drop, List.getElem_range]
    congr 1
    unfold nth
    rw [List.getD_eq_getElem df defaultCandle (by
      simp only [List.length_map, List.length_take, List.length_drop] at h1
      omega)]

lemma swing_high_iff (df : List Candle) (w i : Nat) :
    Trade.swing_high df w i = true ↔
      w ≤ i ∧ i + w < df.length ∧
      ∀ j, i - w ≤ j → j ≤ i + w → (nth df j).high ≤ (nth df i).high := by
  unfold Trade.swing_high
  simp only [Bool.and_eq_true, decide_eq_true_eq]
  constructor
  · rintro ⟨⟨h1, h2⟩, h3⟩
    refine ⟨h1, h2, ?_⟩
    intro j hj1 hj2
    rw [h3]
    apply le_qmax
    rw [slice_map_eq Candle.high df (i - w) (2 * w + 1) (by omega)]
    simp only [List.mem_map, List.mem_range]
    exact ⟨j - (i - w), by omega, by rw [show i - w + (j - (i - w)) = j from by omega]⟩
  · rintro ⟨h1, h2, h3⟩
    refine ⟨⟨h1, h2⟩, ?_⟩
    rw [slice_map_eq Candle.high df (i - w) (2 * w + 1) (by omega)]
    have hmem : (nth df i).high ∈ (List.range (2 * w + 1)).map
        fun k => (nth df (i - w + k)).high := by
      simp only [List.mem_map, List.mem_range]
      exact ⟨w, by omega, by rw [show i - w + w = i from by omega]⟩
    have hq := le_qmax hmem
    have hne : ((List.range (2 * w + 1)).map fun k => (nth df (i - w + k)).high) ≠ [] := by
      intro hnil
      have hl := congrArg List.length hnil
      simp only [List.length_map, List.length_range, List.length_nil] at hl
      omega
    have hmem2 := qmax_mem hne
    simp only [List.mem_map, List.mem_range] at hmem2
    obtain ⟨k, hk, hkeq⟩ := hmem2
    exact le_antisymm hq (by rw [← hkeq]; exact h3 _ (by omega) (by omega))

lemma swing_low_iff (df : List Candle) (w i : Nat) :
    Trade.swing_low df w i = true ↔
      w ≤ i ∧ i + w < df.length ∧
      ∀ j, i - w ≤ j → j ≤ i + w → (nth df i).low ≤ (nth df j).low := by
  unfold Trade.swing_low
  simp only [Bool.and_eq_true, decide_eq_true_eq]
  constructor
  · rintro ⟨⟨h1, h2⟩, h3⟩
    refine ⟨h1, h2, ?_⟩
    intro j hj1 hj2
    rw [h3]
    apply qmin_le
    rw [slice_map_eq Candle.low df (i - w) (2 * w + 1) (by omega)]
    simp only [List.mem_map, List.mem_range]
    exact ⟨j - (i - w), by omega, by rw [show i - w + (j - (i - w)) = j from by omega]⟩
  · rintro ⟨h1, h2, h3⟩
    refine ⟨⟨h1, h2⟩, ?_⟩
    rw [slice_map_eq Candle.low df (i - w) (2 * w + 1) (by omega)]
    have hmem : (nth df i).low ∈ (List.range (2 * w + 1)).map
        fun k => (nth df (i - w + k)).low := by
      simp only [List.mem_map, List.mem_range]
      exact ⟨w, by omega, by rw [show i - w + w = i from by omega]⟩
    have hq := qmin_le hmem
    have hne : ((List.range (2 * w + 1)).map fun k => (nth df (i - w + k)).low) ≠ [] := by
      intro hnil
      have hl := congrArg List.length hnil
      simp only [List.length_map, List.length_range, List.length_nil] at hl
      omega
    have hmem2 := qmin_mem hne
    simp only [List.mem_map, List.mem_range] at hmem2
    obtain ⟨k, hk, hkeq⟩ := hmem2
    exact le_antisymm (by rw [← hkeq]; exact h3 _ (by omega) (by omega)) hq

lemma eswing_high_iff (df : List Candle) (w i : Nat) :
    Enh.swing_high df w i = true ↔
      w ≤ i ∧ i + w < df.length ∧
      ∀ j, i - w ≤ j → j ≤ i + w → j ≠ i → (nth df j).high < (nth df i).high := by
  unfold Enh.swing_high
  simp only [Bool.and_eq_true, decide_eq_true_eq, List.all_eq_true, List.mem_range]
  constructor
  · rintro ⟨⟨⟨h1, h2⟩, hleft⟩, hright⟩
    refine ⟨h1, h2, ?_⟩
    intro j hj1 hj2 hj3
    rcases lt_or_gt_of_ne hj3 with hlt | hgt
    · have hh := hleft (i - j - 1) (by omega)
      rwa [show i - (i - j - 1 + 1) = j from by omega] at hh
    · have hh := hright (j - i - 1) (by omega)
      rwa [show i + (j - i - 1 + 1) = j from by omega] at hh
  · rintro ⟨h1, h2, h3⟩
    refine ⟨⟨⟨h1, h2⟩, ?_⟩, ?_⟩
    · intro k hk
      exact h3 (i - (k + 1)) (by omega) (by omega) (by omega)
    · intro k hk
      exact h3 (i + (k + 1)) (by omega) (by omega) (by omega)

lemma eswing_low_iff (df : List Candle) (w i : Nat) :
    Enh.swing_low df w i = true ↔
      w ≤ i ∧ i + w < df.length ∧
      ∀ j, i - w ≤ j → j ≤ i + w → j ≠ i → (nth df i).low < (nth df j).low := by
  unfold Enh.swing_low
  simp only [Bool.and_eq_true, decide_eq_true_eq, List.all_eq_true, List.mem_range]
  constructor
  · rintro ⟨⟨⟨h1, h2⟩, hleft⟩, hright⟩
    refine ⟨h1, h2, ?_⟩
    intro j hj1 hj2 hj3
    rcases lt_or_gt_of_ne hj3 with hlt | hgt
    · have hh := hleft (i - j - 1) (by omega)
      rwa [show i - (i - j - 1 + 1) = j from by omega] at hh
    · have hh := hright (j - i - 1) (by omega)
      rwa [show i + (j - i - 1 + 1) = j from by omega] at hh
  · rintro ⟨h1, h2, h3⟩
    refine ⟨⟨⟨h1, h2⟩, ?_⟩, ?_⟩
    · intro k hk
      exact h3 (i - (k + 1)) (by omega) (by omega) (by omega)
    · intro k hk
      exact h3 (i + (k + 1)) (by omega) (by omega) (by omega)

lemma applyCand_any_mono {p : Trade.Fvg → Bool} {fvgs : List Trade.Fvg}
    (c : Option Trade.Fvg) (h : fvgs.any p = true) :
    (Trade.applyCand fvgs c).any p = true := by
  cases c with
  | none => exact h
  | some f =>
    show (Trade.addIfNew f fvgs).any p = true
    unfold Trade.addIfNew
    split
    · exact h
    · rw [List.any_append]
      simp [h]

lemma applyCand_some_hasTime (fvgs : List Trade.Fvg) (f : Trade.Fvg) :
    ((Trade.applyCand fvgs (some f)).any
      fun g => decide (g.created_time = f.created_time)) = true := by
  show ((Trade.addIfNew f fvgs).any fun g => decide (g.created_time = f.created_time)) = true
  unfold Trade.addIfNew
  split
  · next h => exact h
  · rw [List.any_append]
    simp

lemma applyCand_some_of_hasTime {fvgs : List Trade.Fvg} {f : Trade.Fvg}
    (h : (fvgs.any fun g => decide (g.created_time = f.created_time)) = true) :
    Trade.applyCand fvgs (some f) = fvgs := by
  show Trade.addIfNew f fvgs = fvgs
  unfold Trade.addIfNew
  rw [if_pos h]

lemma foldl_fvgStep_any_mono (df : List Candle) (m : ℚ) (p : Trade.Fvg → Bool) :
    ∀ (idxs : List Nat) (acc : List Trade.Fvg),
      acc.any p = true → (idxs.foldl (Trade.fvgStep df m) acc).any p = true := by
  intro idxs
  induction idxs with
  | nil => intro acc h; exact h
  | cons i is ih =>
    intro acc h
    simp only [List.foldl_cons]
    refine ih _ ?_
    unfold Trade.fvgStep
    exact applyCand_any_mono _ (applyCand_any_mono _ h)

lemma foldl_fvgStep_cand_present (df : List Candle) (m : ℚ) :
    ∀ (idxs : List Nat) (acc : List Trade.Fvg) (i : Nat), i ∈ idxs →
      ∀ f : Trade.Fvg,
        (Trade.bullCand df m i = some f ∨ Trade.bearCand df m i = some f) →
        ((idxs.foldl (Trade.fvgStep df m) acc).any
          fun g => decide (g.created_time = f.created_time)) = true := by
  intro idxs
  induction idxs with
  | nil => intro acc i hi; cases hi
  | cons j js ih =>
    intro acc i hi f hcand
    simp only [List.foldl_cons]
    rcases List.mem_cons.mp hi with rfl | hi2
    · apply foldl_fvgStep_any_mono
      unfold Trade.fvgStep
      rcases hcand with hb | hb
      · rw [hb]
        exact applyCand_any_mono _ (applyCand_some_hasTime acc f)
      · rw [hb]
        exact applyCand_some_hasTime _ f
    · exact ih _ i hi2 f hcand

lemma foldl_fvgStep_id (df : List Candle) (m : ℚ) :
    ∀ (idxs : List Nat) (acc : List Trade.Fvg),
      (∀ i ∈ idxs,
        (∀ f, Trade.bullCand df m i = some f →
          (acc.any fun g => decide (g.created_time = f.created_time)) = true) ∧
        (∀ f, Trade.bearCand df m i = some f →
          (acc.any fun g => decide (g.created_time = f.created_time)) = true)) →
      idxs.foldl (Trade.fvgStep df m) acc = acc := by
  intro idxs
  induction idxs with
  | nil => intro acc _; rfl
  | cons j js ih =>
    intro acc hall
    have hstep : Trade.fvgStep df m acc j = acc := by
      unfold Trade.fvgStep
      have h1 : Trade.applyCand acc (Trade.bullCand df m j) = acc := by
        cases hbull : Trade.bullCand df m j with
        | none => rfl
        | some f1 =>
          exact applyCand_some_of_hasTime ((hall j (List.mem_cons_self _ _)).1 f1 hbull)
      rw [h1]
      cases hbear : Trade.bearCand df m j with
      | none => rfl
      | some f2 =>
        exact applyCand_some_of_hasTime ((hall j (List.mem_cons_self _ _)).2 f2 hbear)
    simp only [List.foldl_cons, hstep]
    exact ih acc fun i hi => hall i (List.mem_cons_of_mem _ hi)

lemma candOf_spec (b : Bias) (cp rr : ℚ) (f : Trade.Fvg) (e : Trade.Entry) :
    Trade.candOf b cp rr f = some e ↔
      f.filled = false ∧ f.retested = false ∧ f.low ≤ cp ∧ cp ≤ f.high ∧
      ((f.type = .bullish ∧ b ≠ .Bearish ∧ e = Trade.mkLongEntry cp rr f) ∨
       (f.type = .bearish ∧ b ≠ .Bullish ∧ e = Trade.mkShortEntry cp rr f)) := by
  unfold Trade.candOf
  split
  · next h =>
    simp only [Bool.or_eq_true] at h
    constructor
    · intro hc
      cases hc
    · rintro ⟨h1, h2, _⟩
      rw [h1, h2] at h
      simp at h
  · next h =>
    simp only [Bool.or_eq_true, not_or, Bool.not_eq_true] at h
    obtain ⟨hf, hr⟩ := h
    split
    · next hb =>
      split
      · next hp =>
        simp only [Option.some.injEq]
        constructor
        · rintro rfl
          exact ⟨hf, hr, hp.1, hp.2, Or.inl ⟨hb.1, hb.2, rfl⟩⟩
        · rintro ⟨_, _, _, _, (⟨_, _, rfl⟩ | ⟨hbear, _, _⟩)⟩
          · rfl
          · simp [hb.1] at hbear
      · next hp =>
        constructor
        · intro hc
          cases hc
        · rintro ⟨_, _, hlo, hhi, _⟩
          exact absurd ⟨hlo, hhi⟩ hp
    · next hb =>
      split
      · next hb2 =>
        split
        · next hp =>
          simp only [Option.some.injEq]
          constructor
          · rintro rfl
            exact ⟨hf, hr, hp.1, hp.2, Or.inr ⟨hb2.1, hb2.2, rfl⟩⟩
          · rintro ⟨_, _, _, _, (⟨hbull, hnb, _⟩ | ⟨_, _, rfl⟩)⟩
            · exact absurd ⟨hbull, hnb⟩ hb
            · rfl
        · next hp =>
          constructor
          · intro hc
            cases hc
          · rintro ⟨_, _, hlo, hhi, _⟩
            exact absurd ⟨hlo, hhi⟩ hp
      · next hb2 =>
        constructor
        · intro hc
          cases hc
        · rintro ⟨_, _, _, _, (⟨hbull, hnb, _⟩ | ⟨hbear, hnb, _⟩)⟩
          · exact absurd ⟨hbull, hnb⟩ hb
          · exact absurd ⟨hbear, hnb⟩ hb2

lemma process_htf_entries (s : Trade.MState) (htf_df : List Candle) :
    (Trade.process_htf_data s htf_df).valid_entries = s.valid_entries ∧
    (Trade.process_htf_data s htf_df).position_open = s.position_open ∧
    (Trade.process_htf_data s htf_df).trade_history = s.trade_history ∧
    (Trade.process_htf_data s htf_df).rr_ratio = s.rr_ratio := by
  unfold Trade.process_htf_data
  split <;> exact ⟨rfl, rfl, rfl, rfl⟩

lemma data_process_fields (s : Trade.MState) (htf_df df : List Candle) :
    (Trade.data_process s htf_df df).position_open = s.position_open ∧
    (Trade.data_process s htf_df df).trade_history = s.trade_history := by
  obtain ⟨_, ho, hh, _⟩ := process_htf_entries s htf_df
  unfold Trade.data_process Trade.process_ltf_data
  split
  · exact ⟨ho, hh⟩
  · unfold Trade.check_fvg_retests
    dsimp only
    split
    · exact ⟨ho, hh⟩
    · exact ⟨ho, hh⟩

lemma data_process_retested (s : Trade.MState) (htf_df df : List Candle)
    (hv : s.valid_entries = []) :
    ∀ e ∈ (Trade.data_process s htf_df df).valid_entries,
      ∃ f ∈ (Trade.data_process s htf_df df).active_fvgs,
        f.created_time = e.fvgTime ∧ f.retested = true := by
  obtain ⟨hv0, _, _, _⟩ := process_htf_entries s htf_df
  unfold Trade.data_process Trade.process_ltf_data
  split
  · rw [hv0, hv]
    simp
  · unfold Trade.check_fvg_retests
    dsimp only
    split
    · next hguard =>
      intro e he
      rw [show (Trade.process_htf_data s htf_df).valid_entries = ([] : List Trade.Entry)
        from hv0.trans hv] at he
      cases he
    · next hguard =>
      intro e he
      rw [mem_sortDesc] at he
      rcases List.mem_filterMap.mp he with ⟨f, hf, hcand⟩
      refine ⟨Trade.retestFvg (Trade.process_htf_data s htf_df).htf_bias (lastClose df)
        (Trade.process_htf_data s htf_df).rr_ratio f, List.mem_map_of_mem _ hf, ?_, ?_⟩
      · rw [retestFvg_created_time, candOf_fvgTime hcand]
      · exact retestFvg_retested_of_some hcand

lemma closeLast_last_fields (h : List Trade.TradeRec) (e p : ℚ) (hne : h ≠ []) :
    (Trade.closeLast h e p).getLast?.map Trade.TradeRec.exit_price = some (some e) ∧
    (Trade.closeLast h e p).getLast?.map Trade.TradeRec.profit_pct = some (some p) := by
  unfold Trade.closeLast
  cases hl : h.getLast? with
  | none => exact absurd (List.getLast?_eq_none_iff.mp hl) hne
  | some t =>
    rw [List.getLast?_concat]
    exact ⟨rfl, rfl⟩

/-- C10: for a series of at least 5 well-formed candles, `calculate_sl_tp`
with "Bullish MSS" returns `stop_loss ≤ last close ≤ take_profit`, with
"Bearish MSS" returns `take_profit ≤ last close ≤ stop_loss`, and any other
direction — or fewer than 5 candles — yields `(None, None)`. -/
theorem C10_calculate_sl_tp (df : List Candle) (rr : ℚ) (h5 : 5 ≤ df.length)
    (hwf : ∀ c ∈ df, c.low ≤ c.close ∧ c.close ≤ c.high) (hrr : 0 ≤ rr) :
    (∃ sl tp, Ict.calculate_sl_tp df ("Bullish MSS") rr = (some sl, some tp) ∧
       sl ≤ lastClose df ∧ lastClose df ≤ tp) ∧
    (∃ sl tp, Ict.calculate_sl_tp df ("Bearish MSS") rr = (some sl, some tp) ∧
       tp ≤ lastClose df ∧ lastClose df ≤ sl) ∧
    (∀ d : String, d ≠ ("Bullish MSS") → d ≠ ("Bearish MSS") →
       Ict.calculate_sl_tp df d rr = (none, none)) ∧
    (∀ (d : String) (df2 : List Candle), df2.length < 5 →
       Ict.calculate_sl_tp df2 d rr = (none, none)) := by
  have hne : df ≠ [] := by
    intro h
    rw [h] at h5
    simp at h5
  have hlastlt : df.length - 1 < df.length := by
    have : 0 < df.length := List.length_pos.mpr hne
    omega
  have hlastmem : nth df (df.length - 1) ∈ df := nth_mem hlastlt
  obtain ⟨hlow, hhigh⟩ := hwf _ hlastmem
  have hnotlt : ¬(df.length < 5) := by omega
  refine ⟨?_, ?_, ?_, ?_⟩
  · have hsl : qmin ((takeLast 5 df).map Candle.low) ≤ lastClose df := by
      refine le_trans (qmin_le ?_) hlow
      exact List.mem_map_of_mem Candle.low (last_mem_takeLast (by omega) hne)
    simp only [Ict.calculate_sl_tp, hnotlt, if_false]
    rw [if_neg (by simp), if_pos (by simp)]
    refine ⟨_, _, rfl, hsl, ?_⟩
    split
    next hcond => exact le_of_lt hcond.2
    next hcond =>
      have : 0 ≤ (lastClose df - qmin ((takeLast 5 df).map Candle.low)) * rr :=
        mul_nonneg (by linarith) hrr
      linarith
  · have hsl : lastClose df ≤ qmax ((takeLast 5 df).map Candle.high) := by
      refine le_trans hhigh (le_qmax ?_)
      exact List.mem_map_of_mem Candle.high (last_mem_takeLast (by omega) hne)
    simp only [Ict.calculate_sl_tp, hnotlt, if_false]
    rw [if_neg (by simp), if_neg (by simp)]
    refine ⟨_, _, rfl, ?_, hsl⟩
    split
    next hcond => exact le_of_lt hcond.2
    next hcond =>
      have : 0 ≤ (qmax ((takeLast 5 df).map Candle.high) - lastClose df) * rr :=
        mul_nonneg (by linarith) hrr
      linarith
  · intro d hd1 hd2
    simp only [Ict.calculate_sl_tp]
    rw [if_pos (show ¬(d = ("Bullish MSS") ∨ d = ("Bearish MSS")) by
      push_neg
      exact ⟨hd1, hd2⟩)]
  · intro d df2 hlen
    by_cases hd : d = ("Bullish MSS") ∨ d = ("Bearish MSS")
    · simp only [Ict.calculate_sl_tp]
      rw [if_neg (not_not_intro hd), if_pos hlen]
    · simp only [Ict.calculate_sl_tp]
      rw [if_pos hd]

/-- Witness for C10 at a concrete five-candle series with ratio 2. -/
theorem C10_witness :
    (∃ sl tp, Ict.calculate_sl_tp exDf10 ("Bullish MSS") 2 = (some sl, some tp) ∧
       sl ≤ lastClose exDf10 ∧ lastClose exDf10 ≤ tp) ∧
    (∃ sl tp, Ict.calculate_sl_tp exDf10 ("Bearish MSS") 2 = (some sl, some tp) ∧
       tp ≤ lastClose exDf10 ∧ lastClose exDf10 ≤ sl) ∧
    (∀ d : String, d ≠ ("Bullish MSS") → d ≠ ("Bearish MSS") →
       Ict.calculate_sl_tp exDf10 d 2 = (none, none)) ∧
    (∀ (d : String) (df2 : List Candle), df2.length < 5 →
       Ict.calculate_sl_tp df2 d 2 = (none, none)) :=
  C10_calculate_sl_tp exDf10 2 (by decide) (by decide) (by decide)

/-- C1: while a position is open, entry-signal evaluation is skipped
(`check_fvg_retests` is the identity), and a `manager` step creates no new
position: the trade history keeps its length, FVGs and candidates are
untouched, and the position either closes or stays exactly as it was — so at
most one position is ever open. -/
theorem C1_single_position (s : Trade.MState) (htf_df df : List Candle) (fill : Bool)
    (current_price : ℚ) (hOpen : s.position_open = true) :
    Trade.check_fvg_retests s current_price = s ∧
    (Trade.manager s htf_df df fill).trade_history.length = s.trade_history.length ∧
    (Trade.manager s htf_df df fill).active_fvgs = s.active_fvgs ∧
    (Trade.manager s htf_df df fill).valid_entries = s.valid_entries ∧
    ((Trade.manager s htf_df df fill).position_open = false ∨
      ((Trade.manager s htf_df df fill).position_open = true ∧
       (Trade.manager s htf_df df fill).position_type = s.position_type ∧
       (Trade.manager s htf_df df fill).entry_price = s.entry_price)) := by
  have hcheck : Trade.check_fvg_retests s current_price = s := by
    unfold Trade.check_fvg_retests
    rw [if_pos (Or.inr hOpen)]
  refine ⟨hcheck, ?_⟩
  unfold Trade.manager
  rw [if_pos hOpen]
  rcases hty : s.position_type with _ | ty
  · simp [hty, hOpen]
  · cases ty
    case long =>
      simp only [hty]
      obtain ⟨ho, ht, he, _, hh, ha, hv, _⟩ := trailLong_fields s (lastClose df)
      split
      · rcases trade_sell_close s (lastClose df) fill hOpen hty with hc | hc <;> rw [hc]
        · exact ⟨rfl, rfl, rfl, Or.inr ⟨hOpen, hty, rfl⟩⟩
        · exact ⟨closeLast_length _ _ _, rfl, rfl, Or.inl rfl⟩
      · split
        · rcases trade_sell_close (Trade.trailLong s (lastClose df)) (lastClose df) fill
            (by rw [ho]; exact hOpen) (by rw [ht]; exact hty) with hc | hc <;> rw [hc]
          · exact ⟨by rw [hh], ha, hv, Or.inr ⟨by rw [ho]; exact hOpen, by rw [ht, hty], he⟩⟩
          · refine ⟨?_, ha, hv, Or.inl rfl⟩
            rw [closeLast_length, hh]
        · exact ⟨by rw [hh], ha, hv, Or.inr ⟨by rw [ho]; exact hOpen, by rw [ht, hty], he⟩⟩
    case short =>
      simp only [hty]
      obtain ⟨ho, ht, he, _, hh, ha, hv, _⟩ := trailShort_fields s (lastClose df)
      split
      · rcases trade_buy_close s (lastClose df) fill hOpen hty with hc | hc <;> rw [hc]
        · exact ⟨rfl, rfl, rfl, Or.inr ⟨hOpen, hty, rfl⟩⟩
        · exact ⟨closeLast_length _ _ _, rfl, rfl, Or.inl rfl⟩
      · split
        · rcases trade_buy_close (Trade.trailShort s (lastClose df)) (lastClose df) fill
            (by rw [ho]; exact hOpen) (by rw [ht]; exact hty) with hc | hc <;> rw [hc]
          · exact ⟨by rw [hh], ha, hv, Or.inr ⟨by rw [ho]; exact hOpen, by rw [ht, hty], he⟩⟩
          · refine ⟨?_, ha, hv, Or.inl rfl⟩
            rw [closeLast_length, hh]
        · exact ⟨by rw [hh], ha, hv, Or.inr ⟨by rw [ho]; exact hOpen, by rw [ht, hty], he⟩⟩

/-- Witness for C1 at a concrete open-long state. -/
theorem C1_witness :
    Trade.check_fvg_retests exS1 101 = exS1 ∧
    (Trade.manager exS1 [] exDf1 true).trade_history.length = exS1.trade_history.length ∧
    (Trade.manager exS1 [] exDf1 true).active_fvgs = exS1.active_fvgs ∧
    (Trade.manager exS1 [] exDf1 true).valid_entries = exS1.valid_entries ∧
    ((Trade.manager exS1 [] exDf1 true).position_open = false ∨
      ((Trade.manager exS1 [] exDf1 true).position_open = true ∧
       (Trade.manager exS1 [] exDf1 true).position_type = exS1.position_type ∧
       (Trade.manager exS1 [] exDf1 true).entry_price = exS1.entry_price)) :=
  C1_single_position exS1 [] exDf1 true 101 (by decide)

/-- C3: while a position is open with trailing enabled, one `manager` step
never lowers the stop of a long position and never raises the stop of a short
position. -/
theorem C3_trailing_stop (s : Trade.MState) (htf_df df : List Candle) (fill : Bool)
    (hOpen : s.position_open = true) (_hTrail : s.trail_stop_enabled = true) :
    (s.position_type = some .long →
       s.stop_loss ≤ (Trade.manager s htf_df df fill).stop_loss) ∧
    (s.position_type = some .short →
       (Trade.manager s htf_df df fill).stop_loss ≤ s.stop_loss) := by
  constructor
  · intro hty
    unfold Trade.manager
    rw [if_pos hOpen]
    simp only [hty]
    split
    · rw [trade_sell_stop_loss]
    · split
      · rw [trade_sell_stop_loss]
        exact (trailLong_fields s (lastClose df)).2.2.2.2.2.2.2
      · exact (trailLong_fields s (lastClose df)).2.2.2.2.2.2.2
  · intro hty
    unfold Trade.manager
    rw [if_pos hOpen]
    simp only [hty]
    split
    · rw [trade_buy_stop_loss]
    · split
      · rw [trade_buy_stop_loss]
        exact (trailShort_fields s (lastClose df)).2.2.2.2.2.2.2
      · exact (trailShort_fields s (lastClose df)).2.2.2.2.2.2.2

/-- C4 counterexample: a bar whose low (100.5) trades through the midpoint
(101) of the bullish FVG 100–102 does not mark it filled — the code fills a
bullish FVG only when the low reaches the gap's bottom, not its midpoint. -/
theorem C4_counterexample :
    (Trade.update_active_fvgs [exF4] (201/2) 95 0 60).map Trade.Fvg.filled = [false] ∧
    ((201 : ℚ)/2) ≤ (exF4.high + exF4.low) / 2 := by
  refine ⟨?_, by norm_num [exF4]⟩
  norm_num [Trade.update_active_fvgs, Trade.markFilled, exF4]

/-- C4 amended: `trade.py` marks a bullish FVG filled exactly when the bar's
low reaches the gap bottom (`low ≤ fvg.low`) and a bearish one when the bar's
high reaches the gap top; the enhanced variant instead drops an FVG when the
close crosses the far edge (close below bottom / above top) or when its age
exceeds the lookback. -/
theorem C4_fill_rule (f : Trade.Fvg) (last_low last_high : ℚ)
    (fvg_lookback : Nat) (g : Enh.EFvg) (current_price : ℚ)
    (hf : f.filled = false) :
    ((Trade.markFilled last_low last_high f).filled = true ↔
      (f.type = .bullish ∧ last_low ≤ f.low) ∨ (f.type = .bearish ∧ f.high ≤ last_high)) ∧
    (Enh.updateStep fvg_lookback current_price g = none ↔
      fvg_lookback < g.age + 1 ∨ (g.type = .bullish ∧ current_price < g.bottom) ∨
      (g.type = .bearish ∧ g.top < current_price)) := by
  constructor
  · unfold Trade.markFilled
    rw [if_neg (by simp [hf])]
    split <;> rename_i ht <;> split <;> rename_i hc <;> simp_all
  · simp only [Enh.updateStep]
    split
    · next h => simp_all
    · split
      · next h => simp_all
      · split
        · next h => simp_all
        · next h1 h2 h3 => simp_all

/-- Witness for C4 at concrete inputs. -/
theorem C4_witness :
    ((Trade.markFilled 99 0 exF4).filled = true ↔
      (exF4.type = FvgType.bullish ∧ (99 : ℚ) ≤ exF4.low) ∨
      (exF4.type = FvgType.bearish ∧ exF4.high ≤ (0 : ℚ))) ∧
    (Enh.updateStep 5 101 exG4 = none ↔
      5 < exG4.age + 1 ∨ (exG4.type = FvgType.bullish ∧ (101 : ℚ) < exG4.bottom) ∨
      (exG4.type = FvgType.bearish ∧ exG4.top < (101 : ℚ))) :=
  C4_fill_rule exF4 99 0 5 exG4 101 rfl

/-- C5 counterexample: after a `trade.py` update pass the collection can keep
an entry with `filled = true` (a young filled FVG survives), and it keeps an
unfilled FVG whose age far exceeds the 20-bar maximum. -/
theorem C5_counterexample :
    (Trade.update_active_fvgs [exF5] 99 0 60 60).map Trade.Fvg.filled = [true] ∧
    (Trade.update_active_fvgs [exF5old] 200 300 100000000 60).map Trade.Fvg.filled = [false] ∧
    20 * 60 * 60 < (100000000 : Int) - exF5old.created_time := by
  refine ⟨?_, ?_, by norm_num [exF5old]⟩
  · norm_num [Trade.update_active_fvgs, Trade.markFilled, exF5]
  · norm_num [Trade.update_active_fvgs, Trade.markFilled, exF5old]

/-- C5 amended: the `trade.py` pass keeps exactly the marked FVGs that are
unfilled or younger than 20 bars (so only filled-and-old entries are pruned);
in the enhanced variant every surviving FVG has age within the lookback and
fails both fill conditions. -/
theorem C5_prune_rule (fvgs : List Trade.Fvg) (last_low last_high : ℚ)
    (current_time interval_seconds : Int) (fvg_lookback : Nat)
    (efvgs : List Enh.EFvg) (current_price : ℚ) :
    (∀ g, g ∈ Trade.update_active_fvgs fvgs last_low last_high current_time interval_seconds ↔
       ∃ f ∈ fvgs, g = Trade.markFilled last_low last_high f ∧
         (g.filled = false ∨ current_time - g.created_time < 20 * 60 * interval_seconds)) ∧
    (∀ g ∈ Enh.update_active_fvgs fvg_lookback efvgs current_price,
       g.age ≤ fvg_lookback ∧ ¬(g.type = .bullish ∧ current_price < g.bottom) ∧
       ¬(g.type = .bearish ∧ g.top < current_price)) := by
  constructor
  · intro g
    unfold Trade.update_active_fvgs
    split
    · next h => simp [h]
    · next h =>
      simp only [List.mem_filter, List.mem_map]
      constructor
      · rintro ⟨⟨f, hf, rfl⟩, hkeep⟩
        refine ⟨f, hf, rfl, ?_⟩
        simpa using hkeep
      · rintro ⟨f, hf, rfl, hkeep⟩
        refine ⟨⟨f, hf, rfl⟩, ?_⟩
        simpa using hkeep
  · intro g hg
    unfold Enh.update_active_fvgs at hg
    rcases List.mem_filterMap.mp hg with ⟨f, hf, hstep⟩
    simp only [Enh.updateStep] at hstep
    split at hstep
    · exact absurd hstep (by simp)
    · split at hstep
      · exact absurd hstep (by simp)
      · split at hstep
        · exact absurd hstep (by simp)
        · next h1 h2 h3 =>
          obtain rfl := Option.some.inj hstep
          refine ⟨by simp_all, by simp_all, by simp_all⟩

/-- Witness for C5: the surviving enhanced FVG after one pass satisfies the
age and non-fill conditions. -/
theorem C5_witness :
    exG5.age ≤ 5 ∧ ¬(exG5.type = FvgType.bullish ∧ (101 : ℚ) < exG5.bottom) ∧
    ¬(exG5.type = FvgType.bearish ∧ exG5.top < (101 : ℚ)) :=
  (C5_prune_rule [] 0 0 0 60 5 [exG5pre] 101).2 exG5 (by
    rw [show Enh.update_active_fvgs 5 [exG5pre] 101 = [exG5] from rfl]
    exact List.mem_singleton.mpr rfl)

/-- Witness for C3 at a concrete open-short state. -/
theorem C3_witness :
    (exS3.position_type = some .long →
       exS3.stop_loss ≤ (Trade.manager exS3 [] exDf3 true).stop_loss) ∧
    (exS3.position_type = some .short →
       (Trade.manager exS3 [] exDf3 true).stop_loss ≤ exS3.stop_loss) :=
  C3_trailing_stop exS3 [] exDf3 true (by decide) (by decide)

/-- C8 counterexample: an open long with target 105 sees a bar closing at
110; the position is closed but the recorded exit price is the bar's close
(110), not the crossed take-profit level (105). -/
theorem C8_counterexample :
    (Trade.manager exS8 [] exDf8 true).trade_history.map Trade.TradeRec.exit_price
      = [some 110] ∧
    exS8.take_profit = 105 ∧ (110 : ℚ) ≠ 105 := by
  refine ⟨?_, by norm_num [exS8], by norm_num⟩
  norm_num [Trade.manager, Trade.trade_sell, Trade.closeLast, exS8, exDf8, exRec8,
    lastClose, nth]

/-- C8 amended: while a position is open and the bar's close crosses the
target, or crosses the (post-trailing) stop, `manager` closes the position at
the bar's close: the recorded exit price equals the close — which can differ
from the crossed level — and the outcome is recorded as a signed profit
percentage rather than a Win/Loss/Flat label. -/
theorem C8_close_at_close (s : Trade.MState) (htf_df df : List Candle)
    (hOpen : s.position_open = true) (hhist : s.trade_history ≠ []) :
    (s.position_type = some .long →
      (s.take_profit ≤ lastClose df ∨ lastClose df ≤ s.stop_loss) →
      (Trade.manager s htf_df df true).position_open = false ∧
      (Trade.manager s htf_df df true).trade_history.getLast?.map Trade.TradeRec.exit_price
        = some (some (lastClose df)) ∧
      (Trade.manager s htf_df df true).trade_history.getLast?.map Trade.TradeRec.profit_pct
        = some (some ((lastClose df - s.entry_price) / s.entry_price * 100))) ∧
    (s.position_type = some .short →
      (lastClose df ≤ s.take_profit ∨ s.stop_loss ≤ lastClose df) →
      (Trade.manager s htf_df df true).position_open = false ∧
      (Trade.manager s htf_df df true).trade_history.getLast?.map Trade.TradeRec.exit_price
        = some (some (lastClose df)) ∧
      (Trade.manager s htf_df df true).trade_history.getLast?.map Trade.TradeRec.profit_pct
        = some (some ((s.entry_price - lastClose df) / s.entry_price * 100))) := by
  constructor
  · intro hty hhit
    unfold Trade.manager
    rw [if_pos hOpen]
    simp only [hty]
    by_cases htp : s.take_profit ≤ lastClose df
    · rw [if_pos htp]
      unfold Trade.trade_sell
      rw [if_neg (by simp), if_pos ⟨hOpen, hty⟩]
      exact ⟨rfl, (closeLast_last_fields _ _ _ hhist).1, (closeLast_last_fields _ _ _ hhist).2⟩
    · rw [if_neg htp]
      have hsl : lastClose df ≤ s.stop_loss := hhit.resolve_left htp
      obtain ⟨ho, ht, he, _, hh, _, _, hmono⟩ := trailLong_fields s (lastClose df)
      rw [if_pos (le_trans hsl hmono)]
      unfold Trade.trade_sell
      rw [if_neg (by simp), if_pos ⟨by rw [ho]; exact hOpen, by rw [ht]; exact hty⟩]
      rw [hh, he]
      exact ⟨rfl, (closeLast_last_fields _ _ _ hhist).1, (closeLast_last_fields _ _ _ hhist).2⟩
  · intro hty hhit
    unfold Trade.manager
    rw [if_pos hOpen]
    simp only [hty]
    by_cases htp : lastClose df ≤ s.take_profit
    · rw [if_pos htp]
      unfold Trade.trade_buy
      rw [if_neg (by simp), if_pos ⟨hOpen, hty⟩]
      exact ⟨rfl, (closeLast_last_fields _ _ _ hhist).1, (closeLast_last_fields _ _ _ hhist).2⟩
    · rw [if_neg htp]
      have hsl : s.stop_loss ≤ lastClose df := hhit.resolve_left htp
      obtain ⟨ho, ht, he, _, hh, _, _, hmono⟩ := trailShort_fields s (lastClose df)
      rw [if_pos (le_trans hmono hsl)]
      unfold Trade.trade_buy
      rw [if_neg (by simp), if_pos ⟨by rw [ho]; exact hOpen, by rw [ht]; exact hty⟩]
      rw [hh, he]
      exact ⟨rfl, (closeLast_last_fields _ _ _ hhist).1, (closeLast_last_fields _ _ _ hhist).2⟩

/-- C6 counterexample: on highs 1, 2, 2 with window 1, index 1 is marked a
swing high by `trade.py` (its high equals the window maximum) although it is
not a strict maximum — the tie at index 2 violates the claimed strictness. -/
theorem C6_counterexample :
    Trade.swing_high exDf6 1 1 = true ∧ ¬ specStrictSwingHigh exDf6 1 1 := by
  constructor
  · norm_num [Trade.swing_high, qmax, nth, exDf6, max_def]
  · rintro ⟨-, -, hall⟩
    have hh := hall 2 (by omega) (by omega) (by omega)
    norm_num [exDf6, nth] at hh

/-- C6 amended: `trade.py` marks index `i` as a swing high iff it has `window`
candles on each side and `high[i]` equals the (non-strict) maximum over the
window, so ties are marked; the enhanced variant uses the strict comparison of
the claim; swing lows mirror this; a series shorter than `2*window+1` yields
no swing marks at all, as the defined empty result. -/
theorem C6_swing_rule (df : List Candle) (w i : Nat) :
    (Trade.swing_high df w i = true ↔
      w ≤ i ∧ i + w < df.length ∧
      ∀ j, i - w ≤ j → j ≤ i + w → (nth df j).high ≤ (nth df i).high) ∧
    (Trade.swing_low df w i = true ↔
      w ≤ i ∧ i + w < df.length ∧
      ∀ j, i - w ≤ j → j ≤ i + w → (nth df i).low ≤ (nth df j).low) ∧
    (Enh.swing_high df w i = true ↔
      w ≤ i ∧ i + w < df.length ∧
      ∀ j, i - w ≤ j → j ≤ i + w → j ≠ i → (nth df j).high < (nth df i).high) ∧
    (Enh.swing_low df w i = true ↔
      w ≤ i ∧ i + w < df.length ∧
      ∀ j, i - w ≤ j → j ≤ i + w → j ≠ i → (nth df i).low < (nth df j).low) ∧
    (df.length < 2 * w + 1 →
      Trade.swing_high df w i = false ∧ Trade.swing_low df w i = false ∧
      Enh.swing_high df w i = false ∧ Enh.swing_low df w i = false) := by
  refine ⟨swing_high_iff df w i, swing_low_iff df w i, eswing_high_iff df w i,
    eswing_low_iff df w i, ?_⟩
  intro hlen
  refine ⟨?_, ?_, ?_, ?_⟩
  · cases hb : Trade.swing_high df w i with
    | false => rfl
    | true =>
      obtain ⟨h1, h2, -⟩ := (swing_high_iff df w i).mp hb
      omega
  · cases hb : Trade.swing_low df w i with
    | false => rfl
    | true =>
      obtain ⟨h1, h2, -⟩ := (swing_low_iff df w i).mp hb
      omega
  · cases hb : Enh.swing_high df w i with
    | false => rfl
    | true =>
      obtain ⟨h1, h2, -⟩ := (eswing_high_iff df w i).mp hb
      omega
  · cases hb : Enh.swing_low df w i with
    | false => rfl
    | true =>
      obtain ⟨h1, h2, -⟩ := (eswing_low_iff df w i).mp hb
      omega

/-- Witness for C6: the empty series yields no swing marks. -/
theorem C6_witness :
    Trade.swing_high [] 1 0 = false ∧ Trade.swing_low [] 1 0 = false ∧
    Enh.swing_high [] 1 0 = false ∧ Enh.swing_low [] 1 0 = false :=
  (C6_swing_rule [] 1 0).2.2.2.2 (by decide)

/-- C2 counterexample: the enhanced client re-processes the identical candle
data (same frame, same recorded sweep) and appends a second, duplicate FVG —
there is no last-processed-timestamp guard and no duplicate check in that
variant. -/
theorem C2_counterexample :
    (Enh.detect_fair_value_gaps exDf2 (some exSw2)
        (Enh.detect_fair_value_gaps exDf2 (some exSw2) [])).length = 2 ∧
    (Enh.detect_fair_value_gaps exDf2 (some exSw2) []).length = 1 := by
  norm_num [Enh.detect_fair_value_gaps, exDf2, exSw2, nth]

/-- C2 amended: the engine keeps no last-processed-timestamp; in `trade.py`
replaying the same frame is nevertheless FVG-idempotent because creation is
deduplicated by `created_time` — running `detect_fair_value_gaps` a second
time over the same data changes nothing. The enhanced variant lacks the guard
and duplicates FVGs on replay. -/
theorem C2_replay_idempotent (df : List Candle) (m : ℚ) (fvgs : List Trade.Fvg) :
    Trade.detect_fair_value_gaps df m (Trade.detect_fair_value_gaps df m fvgs)
      = Trade.detect_fair_value_gaps df m fvgs := by
  unfold Trade.detect_fair_value_gaps
  apply foldl_fvgStep_id
  intro i hi
  constructor
  · intro f hb
    exact foldl_fvgStep_cand_present df m _ fvgs i hi f (Or.inl hb)
  · intro f hb
    exact foldl_fvgStep_cand_present df m _ fvgs i hi f (Or.inr hb)

/-- C7 counterexample: under Neutral bias (not equal to Bullish) a bar closing
at 101 — inside the 100–102 gap, not above its top — still synthesizes a long
candidate: the code gates by "bias is not the opposite" and "close inside the
gap", not by bias equality and a bounce beyond the near edge. -/
theorem C7_counterexample :
    exS7.htf_bias = Bias.Neutral ∧
    (Trade.check_fvg_retests exS7 101).valid_entries.map Trade.Entry.type
      = [PosType.long] ∧
    (101 : ℚ) ≤ exF7.high := by
  refine ⟨rfl, ?_, by norm_num [exF7]⟩
  norm_num [Trade.check_fvg_retests, Trade.candOf, Trade.retestFvg, Trade.sortDesc,
    Trade.insertDesc, Trade.mkLongEntry, exS7, exF7]

/-- C7 amended: with no position open and a nonempty FVG collection, an entry
is synthesized exactly from an unfilled, non-retested FVG whose direction is
not opposed by the bias (bullish unless the bias is Bearish, bearish unless it
is Bullish) when the close lies inside `[low, high]`; the candidate enters at
the close with the stop just beyond the far edge and target at
entry ± risk·rr. -/
theorem C7_entry_guard (s : Trade.MState) (current_price : ℚ) (e : Trade.Entry)
    (hOpen : s.position_open = false) (hne : s.active_fvgs ≠ []) :
    e ∈ (Trade.check_fvg_retests s current_price).valid_entries ↔
      ∃ f ∈ s.active_fvgs, f.filled = false ∧ f.retested = false ∧
        f.low ≤ current_price ∧ current_price ≤ f.high ∧
        ((f.type = .bullish ∧ s.htf_bias ≠ .Bearish ∧
            e = Trade.mkLongEntry current_price s.rr_ratio f) ∨
         (f.type = .bearish ∧ s.htf_bias ≠ .Bullish ∧
            e = Trade.mkShortEntry current_price s.rr_ratio f)) := by
  unfold Trade.check_fvg_retests
  rw [if_neg (by simp [hOpen, hne])]
  dsimp only
  simp only [mem_sortDesc, List.mem_filterMap]
  constructor
  · rintro ⟨f, hf, hc⟩
    exact ⟨f, hf, (candOf_spec _ _ _ _ _).mp hc⟩
  · rintro ⟨f, hf, hprops⟩
    exact ⟨f, hf, (candOf_spec _ _ _ _ _).mpr hprops⟩

/-- Witness for C7 at the concrete flat state `exS7` and entry `exE7`. -/
theorem C7_witness :
    exE7 ∈ (Trade.check_fvg_retests exS7 101).valid_entries ↔
      ∃ f ∈ exS7.active_fvgs, f.filled = false ∧ f.retested = false ∧
        f.low ≤ (101 : ℚ) ∧ (101 : ℚ) ≤ f.high ∧
        ((f.type = .bullish ∧ exS7.htf_bias ≠ .Bearish ∧
            exE7 = Trade.mkLongEntry 101 exS7.rr_ratio f) ∨
         (f.type = .bearish ∧ exS7.htf_bias ≠ .Bullish ∧
            exE7 = Trade.mkShortEntry 101 exS7.rr_ratio f)) :=
  C7_entry_guard exS7 101 exE7 (by decide) (by decide)

/-- C9 counterexample: a candidate is synthesized from `exF9` and the
execution call fails (raises); the state machine indeed stays flat, but the
FVG's `retested` flag has already been set during candidate synthesis and is
never cleared — contradicting the claim that it is not set on a failed fill. -/
theorem C9_counterexample :
    (Trade.manager exS9 [] exDf9 false).position_open = false ∧
    (Trade.manager exS9 [] exDf9 false).active_fvgs.map Trade.Fvg.retested = [true] := by
  have hr : List.drop 3 (List.range 1) = ([] : List Nat) := by decide
  norm_num [Trade.manager, Trade.data_process, Trade.process_htf_data,
    Trade.process_ltf_data, Trade.detect_fair_value_gaps, Trade.update_active_fvgs,
    Trade.markFilled, Trade.check_fvg_retests, Trade.candOf, Trade.retestFvg,
    Trade.sortDesc, Trade.insertDesc, Trade.mkLongEntry, Trade.trade_buy, hr,
    exS9, exDf9, exF9, lastClose, nth]
  decide

/-- C9 amended: when the execution collaborator fails (raises) on an intended
entry, the engine stays flat and appends no trade record; but every
synthesized candidate's FVG is already marked `retested = true` at synthesis
time, so that FVG is not re-evaluated on a future bar. -/
theorem C9_failed_fill (s : Trade.MState) (htf_df df : List Candle)
    (hOpen : s.position_open = false) (hv : s.valid_entries = []) :
    (Trade.manager s htf_df df false).position_open = false ∧
    (Trade.manager s htf_df df false).trade_history = s.trade_history ∧
    ∀ e ∈ (Trade.manager s htf_df df false).valid_entries,
      ∃ f ∈ (Trade.manager s htf_df df false).active_fvgs,
        f.created_time = e.fvgTime ∧ f.retested = true := by
  obtain ⟨hdo, hdh⟩ := data_process_fields s htf_df df
  have hdr := data_process_retested s htf_df df hv
  unfold Trade.manager
  rw [if_neg (by rw [hOpen]; simp)]
  rcases hve : (Trade.data_process s htf_df df).valid_entries with _ | ⟨best, rest⟩
  · simp only [hve]
    refine ⟨by rw [hdo, hOpen], hdh, ?_⟩
    intro e he
    rw [hve] at hdr
    exact hdr e he
  · simp only [hve]
    cases hbt : best.type
    · simp only [hbt, trade_buy_nofill]
      refine ⟨by rw [hdo] at *; exact hOpen ▸ rfl, hdh, ?_⟩
      intro e he
      have he2 : e ∈ (Trade.data_process s htf_df df).valid_entries := by
        rw [hve]; exact he
      exact hdr e he2
    · simp only [hbt, trade_sell_nofill]
      refine ⟨by rw [hdo] at *; exact hOpen ▸ rfl, hdh, ?_⟩
      intro e he
      have he2 : e ∈ (Trade.data_process s htf_df df).valid_entries := by
        rw [hve]; exact he
      exact hdr e he2

/-- Witness for C9 at the concrete flat state `exS9`. -/
theorem C9_witness :
    (Trade.manager exS9 [] exDf9 false).position_open = false ∧
    (Trade.manager exS9 [] exDf9 false).trade_history = exS9.trade_history ∧
    ∀ e ∈ (Trade.manager exS9 [] exDf9 false).valid_entries,
      ∃ f ∈ (Trade.manager exS9 [] exDf9 false).active_fvgs,
        f.created_time = e.fvgTime ∧ f.retested = true :=
  C9_failed_fill exS9 [] exDf9 (by decide) (by decide)

/-- Witness for C8 at the concrete open-long state `exS8`. -/
theorem C8_witness :
    (exS8.position_type = some .long →
      (exS8.take_profit ≤ lastClose exDf8 ∨ lastClose exDf8 ≤ exS8.stop_loss) →
      (Trade.manager exS8 [] exDf8 true).position_open = false ∧
      (Trade.manager exS8 [] exDf8 true).trade_history.getLast?.map Trade.TradeRec.exit_price
        = some (some (lastClose exDf8)) ∧
      (Trade.manager exS8 [] exDf8 true).trade_history.getLast?.map Trade.TradeRec.profit_pct
        = some (some ((lastClose exDf8 - exS8.entry_price) / exS8.entry_price * 100))) ∧
    (exS8.position_type = some .short →
      (lastClose exDf8 ≤ exS8.take_profit ∨ exS8.stop_loss ≤ lastClose exDf8) →
      (Trade.manager exS8 [] exDf8 true).position_open = false ∧
      (Trade.manager exS8 [] exDf8 true).trade_history.getLast?.map Trade.TradeRec.exit_price
        = some (some (lastClose exDf8)) ∧
      (Trade.manager exS8 [] exDf8 true).trade_history.getLast?.map Trade.TradeRec.profit_pct
        = some (some ((exS8.entry_price - lastClose exDf8) / exS8.entry_price * 100))) :=
  C8_close_at_close exS8 [] exDf8 (by decide) (by simp [exS8])

end SMC
